import Mathlib

/-!
Shallow embedding of the expresskit OpenAPI registry
(src/openapi-registry.ts and src/security-schemas.ts) and proofs about it.

JavaScript objects whose key sets matter are modelled as insertion-ordered
association lists (`List (String × α)`); property assignment is `setKey`
(update in place when the key exists, append otherwise), matching both
`obj[k] = v` and object-spread-plus-literal semantics.  JavaScript
`undefined`-vs-missing-key distinctions are modelled with `JsField`.
The external structural-schema compiler `z.toJSONSchema` is a black box
per the design document, so validation schemas are represented by the
structural schema they compile to and the compiler is the identity.
-/

/-- Association-list lookup, mirroring JavaScript property access `obj[k]`. -/
def lookupKey {α : Type} : List (String × α) → String → Option α
  | [], _ => none
  | (k, v) :: rest, key => if k = key then some v else lookupKey rest key

/-- Association-list update mirroring JavaScript `obj[k] = v`: replaces the
value in place when the key exists (keeping its position), appends otherwise. -/
def setKey {α : Type} : List (String × α) → String → α → List (String × α)
  | [], key, v => [(key, v)]
  | (k, w) :: rest, key, v =>
    if k = key then (k, v) :: rest else (k, w) :: setKey rest key v

/-- The key set of a JavaScript-object model. -/
def keysOf {α : Type} (l : List (String × α)) : List String := l.map Prod.fst

/-- JavaScript `a || b` on an optional string: the default wins when the
value is missing or empty (falsy). -/
def jsOrStr (o : Option String) (d : String) : String :=
  match o with
  | none => d
  | some s => if s = "" then d else s

/-- State of a field of a JavaScript object: key missing, key present holding
`undefined`, or key present holding a value. -/
inductive JsField (α : Type) where
  | absent : JsField α
  | undef : JsField α
  | val (a : α) : JsField α
  deriving DecidableEq, Repr

/-- Direct assignment `obj.f = x` of an optional value: the key is always
created; a missing source value leaves the JavaScript `undefined` behind. -/
def jsOpt {α : Type} : Option α → JsField α
  | some a => JsField.val a
  | none => JsField.undef

/-- Lower-casing as `String.prototype.toLowerCase` on the ASCII route
methods the registry deals with. -/
def lowerStr (s : String) : String := ⟨s.data.map Char.toLower⟩

/-- Splitting a route-table key on runs of whitespace, as
`key.trim().split(/\s+/)` does for keys made of visible tokens: the
resulting tokens are exactly the maximal whitespace-free runs.  The fuel is
the character count, which always suffices since every step consumes at
least one character. -/
def wordsWs : Nat → List Char → List String
  | 0, _ => []
  | _ + 1, [] => []
  | fuel + 1, c :: rest =>
    if c.isWhitespace then wordsWs fuel rest
    else
      ⟨(c :: rest).takeWhile (fun a => ¬ a.isWhitespace)⟩ ::
        wordsWs fuel ((c :: rest).dropWhile (fun a => ¬ a.isWhitespace))

/-- Tokens of a route-table key (see `wordsWs`). -/
def splitWsParts (s : String) : List String := wordsWs s.data.length s.data

/-- Rejoining the path tokens with single spaces, as
`rawPathParts.join(' ')`. -/
def joinSpace : List String → String
  | [] => ""
  | [s] => s
  | s :: rest => s ++ " " ++ joinSpace rest

/-- One step-bounded pass of the Express-to-OpenAPI path rewrite
`routePath.replace(/\/:([^/]+)/g, ...)`: whenever a slash-colon is followed
by at least one non-slash character, the colon and the maximal non-slash run
are replaced by the run wrapped in braces; otherwise the scanner advances one
character.  The fuel is the character count, which always suffices. -/
def convFuel : Nat → List Char → List Char
  | 0, l => l
  | _ + 1, [] => []
  | _ + 1, [c] => [c]
  | fuel + 1, c1 :: c2 :: rest =>
    if c1 = '/' ∧ c2 = ':' ∧ rest ≠ [] ∧ rest.head? ≠ some '/' then
      c1 :: '{' ::
        (rest.takeWhile (fun a => a ≠ '/') ++
          '}' :: convFuel fuel (rest.dropWhile (fun a => a ≠ '/')))
    else
      c1 :: convFuel fuel (c2 :: rest)

/-- Express-to-OpenAPI path conversion (line 172 of the registry):
`routePath.replace(/\/:([^/]+)/g, ...)` turning each colon parameter into a
brace parameter. -/
def convertPath (s : String) : String := ⟨convFuel s.data.length s.data⟩

/-- Whether a character list still contains a match of the parameter regex
`\/:[^/]+` (a slash, a colon, then at least one non-slash character). -/
def hasParam : List Char → Bool
  | [] => false
  | [_] => false
  | c1 :: c2 :: rest =>
    if c1 = '/' ∧ c2 = ':' ∧ rest ≠ [] ∧ rest.head? ≠ some '/' then true
    else hasParam (c2 :: rest)

/-- A property-level structural schema, kept opaque: `createParameters`
copies each property schema through verbatim without inspecting it. -/
structure PropJson where
  tag : Nat
  deriving DecidableEq, Repr

/-- The JSON-Schema-like output of the external structural-schema compiler,
restricted to the three fields the registry inspects (`type`, `properties`,
`required`); everything else is carried opaquely by the value itself. -/
structure JsonSchema where
  type : Option String := none
  properties : Option (List (String × PropJson)) := none
  required : Option (List String) := none
  deriving DecidableEq, Repr

/-- A validation schema, represented by the structural schema it compiles
to (the compiler is an external black box treated as a pure function). -/
abbrev ZodType := JsonSchema

/-- The external compiler `z.toJSONSchema`, modelled as the identity on the
structural representation. -/
def toJSONSchema (s : ZodType) : JsonSchema := s

/-- An OpenAPI security scheme definition body, opaque to the registry
(it is copied verbatim into `components.securitySchemes`). -/
structure SecuritySchemeObject where
  tag : Nat
  deriving DecidableEq, Repr

/-- A named security scheme association (`security-schemas.ts`):
`{name, scheme, scopes?}`. -/
structure SecuritySchemeDefinition where
  name : String
  scheme : SecuritySchemeObject
  scopes : Option (List String) := none
  deriving DecidableEq, Repr

/-- One response declaration: either a bare validation schema or a
`{schema?, description?, name?}` wrapper (the `instanceof z.ZodType` probe). -/
inductive ResponseSpec where
  | bare (schema : ZodType) : ResponseSpec
  | detailed (schema : Option ZodType) (description : Option String)
      (name : Option String) : ResponseSpec
  deriving DecidableEq, Repr

/-- The schema applicable to a response entry: the entry itself when bare,
else its `.schema` field (line 118 of the registry). -/
def specSchema : ResponseSpec → Option ZodType
  | .bare s => some s
  | .detailed s _ _ => s

/-- The declared description of a response entry: absent when the entry is
a bare schema (line 120 of the registry). -/
def specDescription : ResponseSpec → Option String
  | .bare _ => none
  | .detailed _ d _ => d

/-- A contract's `response` block: optional content type plus the map from
status code to response declaration. -/
structure ResponseConfig where
  contentType : Option String := none
  content : List (String × ResponseSpec)
  deriving DecidableEq, Repr

/-- A contract's `request` block. -/
structure RequestSpec where
  query : Option ZodType := none
  params : Option ZodType := none
  headers : Option ZodType := none
  body : Option ZodType := none
  contentType : Option (List String) := none
  deriving DecidableEq, Repr

/-- One route contract as attached by `withContract`. -/
structure RouteContract where
  operationId : Option String := none
  summary : Option String := none
  description : Option String := none
  tags : Option (List String) := none
  request : Option RequestSpec := none
  response : Option ResponseConfig := none
  deriving DecidableEq, Repr

/-- A route handler carrying the contract attached to it by `withContract`
(the framework's identity-keyed side table, read through `getContract`). -/
structure AppRouteHandler where
  contract : Option RouteContract := none
  deriving DecidableEq, Repr

/-- An authentication middleware carrying the scheme definition attached to
it by `withSecurityScheme` (the identity-keyed association table, read
through `getSecurityScheme`). -/
structure AppMiddleware where
  scheme : Option SecuritySchemeDefinition := none
  deriving DecidableEq, Repr

/-- Contract lookup, `getContract(handler)` of the external framework. -/
def getContract (h : AppRouteHandler) : Option RouteContract := h.contract

/-- Security-scheme lookup, `getSecurityScheme(handler)` of
`security-schemas.ts`. -/
def getSecurityScheme (h : AppMiddleware) : Option SecuritySchemeDefinition :=
  h.scheme

/-- The expresskit authentication policy enumeration. -/
inductive AuthPolicy where
  | disabled : AuthPolicy
  | optionalAuth : AuthPolicy
  | required : AuthPolicy
  | redirect : AuthPolicy
  deriving DecidableEq, Repr

/-- A route description `{handler, authHandler?, authPolicy?}`. -/
structure AppRouteDescription where
  handler : AppRouteHandler
  authHandler : Option AppMiddleware := none
  authPolicy : Option AuthPolicy := none
  deriving DecidableEq, Repr

/-- A route-table value: a bare handler function or a full description. -/
inductive RouteValue where
  | fn (h : AppRouteHandler) : RouteValue
  | desc (d : AppRouteDescription) : RouteValue
  deriving DecidableEq, Repr

/-- A route table, `AppRoutes`: keys `"METHOD /path"`, insertion-ordered. -/
abbrev AppRoutes := List (String × RouteValue)

/-- Normalisation of a route-table value (lines 272-275 of the registry):
a bare handler becomes `{handler}`. -/
def normalizeDescription : RouteValue → AppRouteDescription
  | .fn h => { handler := h }
  | .desc d => d

/-- One emitted operation parameter `{name, in, required, schema}`. -/
structure Param where
  name : String
  paramIn : String
  required : Bool
  schema : PropJson
  deriving DecidableEq, Repr

/-- One emitted request body `{required, content}`. -/
structure RequestBody where
  required : Bool
  content : List (String × JsonSchema)
  deriving DecidableEq, Repr

/-- One emitted response object: a description plus, only when a schema is
present, a single-content-type `content` map. -/
structure ResponseObject where
  description : String
  content : Option (String × JsonSchema) := none
  deriving DecidableEq, Repr

/-- One emitted OpenAPI operation object.  Fields of `JsField` type record
whether the corresponding JavaScript key is missing, `undefined`, or set. -/
structure Operation where
  summary : JsField String
  description : JsField String
  tags : JsField (List String)
  operationId : JsField String
  security : JsField (List (String × List String))
  parameters : List Param
  requestBody : JsField RequestBody
  responses : List (String × ResponseObject)
  deriving DecidableEq, Repr

/-- The `info` block of the document. -/
structure Info where
  title : String
  version : String
  description : String
  contact : JsField Nat := JsField.absent
  license : JsField Nat := JsField.absent
  deriving DecidableEq, Repr

/-- The `components` block of the document. -/
structure Components where
  schemas : List (String × JsonSchema) := []
  securitySchemes : List (String × SecuritySchemeObject) := []
  responses : Option (List (String × ResponseObject)) := none
  deriving DecidableEq, Repr

/-- The in-memory OpenAPI document owned by one registry instance. -/
structure OpenApiSchemaObject where
  openapi : String
  info : Info
  servers : List String
  paths : List (String × List (String × Operation))
  components : Components
  deriving DecidableEq, Repr

/-- The registry configuration (`OpenApiRegistryConfig`). -/
structure OpenApiRegistryConfig where
  title : Option String := none
  version : Option String := none
  description : Option String := none
  contact : Option Nat := none
  license : Option Nat := none
  servers : Option (List String) := none
  path : Option String := none
  swaggerJsonPath : Option String := none
  deriving DecidableEq, Repr

/-- The document seeded by `createOpenApiRegistry` (lines 24-45): defaulted
metadata, empty paths and component maps, `contact`/`license` keys created
only when configured. -/
def initialDoc (config : OpenApiRegistryConfig) : OpenApiSchemaObject :=
  { openapi := "3.0.3"
    info :=
      { title := jsOrStr config.title "API Documentation"
        version := jsOrStr config.version "1.0.0"
        description := jsOrStr config.description "Generated API documentation"
        contact := match config.contact with
          | some c => JsField.val c
          | none => JsField.absent
        license := match config.license with
          | some c => JsField.val c
          | none => JsField.absent }
    servers := config.servers.getD ["http://localhost:3030"]
    paths := []
    components := { schemas := [], securitySchemes := [], responses := none } }

/-- The fixed status-code description fallback table (lines 47-60):
`descriptions[statusCode] || 'Response'`. -/
def getResponseDescription (statusCode : String) : String :=
  if statusCode = "200" then "Successful response"
  else if statusCode = "201" then "Created successfully"
  else if statusCode = "204" then "No content"
  else if statusCode = "400" then "Bad request"
  else if statusCode = "401" then "Unauthorized"
  else if statusCode = "403" then "Forbidden"
  else if statusCode = "404" then "Not found"
  else if statusCode = "422" then "Validation error"
  else if statusCode = "500" then "Internal server error"
  else "Response"

/-- Parameter emission (lines 63-79): nothing unless the compiled schema is
an object with a `properties` map; otherwise one parameter per declared
property, required when `alwaysRequired` or listed in the compiled schema's
`required` list. -/
def createParameters (paramType : String) (schema : ZodType)
    (alwaysRequired : Bool) : List Param :=
  let jsonSchema := toJSONSchema schema
  if jsonSchema.type ≠ some "object" then []
  else
    match jsonSchema.properties with
    | none => []
    | some props =>
      let required := jsonSchema.required.getD []
      props.map (fun entry =>
        { name := entry.1
          paramIn := paramType
          required := alwaysRequired || required.contains entry.1
          schema := entry.2 })

/-- Request-body emission (lines 82-96): always required, the compiled
schema under every declared content type (default: a single JSON type). -/
def createRequestBody (bodySchema : ZodType)
    (contentTypes : Option (List String)) : RequestBody :=
  let schema := toJSONSchema bodySchema
  let cts := contentTypes.getD ["application/json"]
  { required := true
    content := cts.foldl (fun acc t => setKey acc t schema) [] }

/-- Response emission (lines 99-140): a synthesized open-object `200` when
the contract declares no responses; otherwise one response object per
declared status code, with declared-or-fallback description and a `content`
key only when a schema is present. -/
def createResponses (responseConfig : Option ResponseConfig) :
    List (String × ResponseObject) :=
  match responseConfig with
  | none =>
    [("200",
      { description := "Successful response"
        content := some ("application/json", { type := some "object" }) })]
  | some cfg =>
    let defaultContentType := jsOrStr cfg.contentType "application/json"
    cfg.content.foldl
      (fun responses entry =>
        let schema := specSchema entry.2
        let description :=
          jsOrStr (specDescription entry.2) (getResponseDescription entry.1)
        let responseObject : ResponseObject :=
          { description := description
            content := schema.map (fun s => (defaultContentType, toJSONSchema s)) }
        setKey responses entry.1 responseObject)
      []

/-- The operation object assembled by `registerRoute` (lines 174-217):
metadata keys `summary`/`description`/`tags` are always created (holding
`undefined` when absent), `operationId` and `security` only conditionally;
parameters in query, path, header order; a request body only for
body-bearing methods. -/
def mkOperation (method : String) (apiConfig : RouteContract)
    (security : List (String × List String)) : Operation :=
  let parameters :=
    (match apiConfig.request.bind RequestSpec.query with
      | some q => createParameters "query" q false
      | none => []) ++
    (match apiConfig.request.bind RequestSpec.params with
      | some pr => createParameters "path" pr true
      | none => []) ++
    (match apiConfig.request.bind RequestSpec.headers with
      | some h => createParameters "header" h false
      | none => [])
  { summary := jsOpt apiConfig.summary
    description := jsOpt apiConfig.description
    tags := jsOpt apiConfig.tags
    operationId :=
      match apiConfig.operationId with
      | some s => if s = "" then JsField.absent else JsField.val s
      | none => JsField.absent
    security := if security = [] then JsField.absent else JsField.val security
    parameters := parameters
    requestBody :=
      if ["post", "put", "patch"].contains (lowerStr method) then
        match apiConfig.request.bind RequestSpec.body with
        | some b =>
          JsField.val
            (createRequestBody b (apiConfig.request.bind RequestSpec.contentType))
        | none => JsField.absent
      else JsField.absent
    responses := createResponses apiConfig.response }

/-- `registerSecurityScheme` on the document (lines 223-230): an upsert
into `components.securitySchemes`. -/
def registerSecuritySchemeDoc (doc : OpenApiSchemaObject) (name : String)
    (scheme : SecuritySchemeObject) : OpenApiSchemaObject :=
  { doc with components :=
      { doc.components with
          securitySchemes := setKey doc.components.securitySchemes name scheme } }

/-- `registerRoute` (lines 151-221): skip when the handler carries no
contract; otherwise register the scheme attached to the declared auth
handler (when any), convert the path, and upsert the assembled operation
under the lower-cased method of the converted path's item. -/
def registerRoute (doc : OpenApiSchemaObject) (method routePath : String)
    (routeHandler : AppRouteHandler) (authHandler : Option AppMiddleware) :
    OpenApiSchemaObject :=
  match getContract routeHandler with
  | none => doc
  | some apiConfig =>
    let found := authHandler.bind getSecurityScheme
    let doc1 :=
      match found with
      | some sd => registerSecuritySchemeDoc doc sd.name sd.scheme
      | none => doc
    let security : List (String × List String) :=
      match found with
      | some sd => [(sd.name, sd.scopes.getD [])]
      | none => []
    let openApiPath := convertPath routePath
    let pathItem := (lookupKey doc1.paths openApiPath).getD []
    let operation := mkOperation method apiConfig security
    { doc1 with
        paths :=
          setKey doc1.paths openApiPath
            (setKey pathItem (lowerStr method) operation) }

/-- The seven recognised HTTP methods (lines 249-257). -/
def recognizedMethods : List String :=
  ["get", "post", "put", "patch", "delete", "head", "options"]

/-- Parsing of one route-table key (lines 261-271): split on whitespace,
require a method token and at least one path token, lower-case the method
and require it recognised; the route path is the remaining tokens rejoined
with single spaces. -/
def parseRouteKey (key : String) : Option (String × String) :=
  match splitWsParts key with
  | [] => none
  | [_] => none
  | rawMethod :: p :: rest =>
    let methodLower := lowerStr rawMethod
    if recognizedMethods.contains methodLower then
      some (methodLower, joinSpace (p :: rest))
    else none

/-- Processing of one route-table entry inside `buildOpenApiSchema`
(lines 260-283): malformed keys and unrecognised methods are skipped. -/
def processEntry (doc : OpenApiSchemaObject) (entry : String × RouteValue) :
    OpenApiSchemaObject :=
  match parseRouteKey entry.1 with
  | none => doc
  | some parsed =>
    let d := normalizeDescription entry.2
    registerRoute doc parsed.1 parsed.2 d.handler d.authHandler

/-- The `buildOpenApiSchema` closure of `registerRoutes` (lines 259-284):
a fold of `processEntry` over the route table in insertion order. -/
def buildOpenApiSchema (routes : AppRoutes) (doc : OpenApiSchemaObject) :
    OpenApiSchemaObject :=
  routes.foldl processEntry doc

/-- `reset()` (lines 240-246): clears `paths`, `components.schemas` and
`components.securitySchemes`; everything else persists. -/
def resetDoc (doc : OpenApiSchemaObject) : OpenApiSchemaObject :=
  { doc with
      paths := []
      components := { doc.components with schemas := [], securitySchemes := [] } }

/-- The synthetic documentation mount entry appended by `registerRoutes`
(lines 290-294): a handler function with no attached contract. -/
def mountEntry : RouteValue :=
  RouteValue.desc { handler := { contract := none } }

/-- The table returned by `registerRoutes` (lines 288-295): the input table
spread into a new object plus the mount entry under the hard-coded key
`"MOUNT /api/docs"` (the configuration is in scope but unused here). -/
def registerRoutesTable (_config : OpenApiRegistryConfig) (routes : AppRoutes) :
    AppRoutes :=
  setKey routes "MOUNT /api/docs" mountEntry

/-- A registry's mutable state: the document plus the queue of deferred
`buildOpenApiSchema` tasks created by `queueMicrotask` (each task is the
route table its closure captured). -/
structure RegistryState where
  doc : OpenApiSchemaObject
  microtasks : List AppRoutes
  deriving DecidableEq, Repr

/-- The state of a freshly created registry. -/
def initState (config : OpenApiRegistryConfig) : RegistryState :=
  { doc := initialDoc config, microtasks := [] }

/-- `registerRoutes` (lines 248-296): queues the document build as a
microtask (line 286) and immediately returns the augmented table; the
document itself is untouched until the microtask runs. -/
def registerRoutes (config : OpenApiRegistryConfig) (st : RegistryState)
    (routes : AppRoutes) : AppRoutes × RegistryState :=
  (registerRoutesTable config routes,
    { st with microtasks := st.microtasks ++ [routes] })

/-- Running every queued microtask to completion, in queue order. -/
def flushMicrotasks (st : RegistryState) : RegistryState :=
  { doc := st.microtasks.foldl (fun d rs => buildOpenApiSchema rs d) st.doc
    microtasks := [] }

/-- The operation registered in a document under a path and method key. -/
def getOperationAt (doc : OpenApiSchemaObject) (p m : String) :
    Option Operation :=
  (lookupKey doc.paths p).bind (fun item => lookupKey item m)

/-- The empty (all-defaults) registry configuration. -/
def cfgDefault : OpenApiRegistryConfig := {}

/-- A contract with every optional field absent. -/
def contractMinimal : RouteContract := {}

/-- A handler carrying the minimal contract. -/
def handlerPlain : AppRouteHandler := { contract := some contractMinimal }

/-- A handler with no attached contract at all. -/
def handlerNoContract : AppRouteHandler := { contract := none }

/-- The bearer scheme association created by `bearerAuth('jwtAuth')`. -/
def jwtScheme : SecuritySchemeDefinition :=
  { name := "jwtAuth", scheme := ⟨0⟩ }

/-- An auth middleware associated with `jwtScheme`. -/
def jwtMiddleware : AppMiddleware := { scheme := some jwtScheme }

/-- A user-lookup contract with one path parameter and one 200 response. -/
def contractGetUser : RouteContract :=
  { operationId := some "getUser"
    request := some
      { params := some
          { type := some "object"
            properties := some [("userId", ⟨3⟩)]
            required := some ["userId"] } }
    response := some { content := [("200", ResponseSpec.bare { type := some "object" })] } }

/-- A handler carrying `contractGetUser`. -/
def handlerGetUser : AppRouteHandler := { contract := some contractGetUser }

/-- Route table for the authentication-policy claim: an explicitly disabled
policy together with a declared, scheme-associated auth handler. -/
def tableAuthDisabled : AppRoutes :=
  [("GET /users/:userId",
    RouteValue.desc
      { handler := handlerGetUser
        authHandler := some jwtMiddleware
        authPolicy := some AuthPolicy.disabled })]

/-- A one-route, contract-bearing table. -/
def tableOneItem : AppRoutes := [("GET /items", RouteValue.fn handlerPlain)]

/-- A configuration asking for the documentation mount at `/custom-docs`. -/
def cfgCustomPath : OpenApiRegistryConfig := { path := some "/custom-docs" }

/-- A configuration asking for a raw-JSON sub-path. -/
def cfgJsonPath : OpenApiRegistryConfig :=
  { path := some "/api-docs", swaggerJsonPath := some "/swagger.json" }

/-- The one-route test table used by the mount-path tests. -/
def tableTest : AppRoutes := [("GET /test", RouteValue.fn handlerPlain)]

/-- A response block mixing a schema-less described entry and a bare one. -/
def cfgRespW : ResponseConfig :=
  { content :=
      [("204", ResponseSpec.detailed none (some "Item deleted") none),
       ("404", ResponseSpec.bare { type := some "object" })] }

/-- A table mixing an effective route, an unrecognised method and a
contract-less handler. -/
def tableMixed : AppRoutes :=
  [("GET /items", RouteValue.fn handlerPlain),
   ("INVALID /test", RouteValue.fn handlerPlain),
   ("GET /nope", RouteValue.fn handlerNoContract)]

/-- A compiled path-parameter schema with one optional-looking property. -/
def schemaParamsW : ZodType :=
  { type := some "object", properties := some [("userId", ⟨4⟩)], required := none }

/-- A compiled query schema with one required property. -/
def schemaQueryW : ZodType :=
  { type := some "object", properties := some [("limit", ⟨5⟩)], required := some ["limit"] }

/-- A contract declaring both query and path parameters. -/
def contractParams : RouteContract :=
  { request := some { query := some schemaQueryW, params := some schemaParamsW } }

/-- The path parameter expected to be emitted from `contractParams`. -/
def paramUserId : Param :=
  { name := "userId", paramIn := "path", required := true, schema := ⟨4⟩ }

/-- A one-route table whose contract carries no optional metadata. -/
def tablePlain : AppRoutes := [("GET /plain", RouteValue.fn handlerPlain)]

/-- A method entry is present in the document: the path key has an item and
that item has the method key. -/
def methodIn (doc : OpenApiSchemaObject) (P m : String) : Prop :=
  ∃ item, lookupKey doc.paths P = some item ∧ m ∈ keysOf item

/-- A route-table entry that contributes an operation under method `m` and
converted path `P`: its key parses to a recognised lower-cased method and a
path, its handler carries a contract, and its path converts to `P`. -/
def effectiveEntry (entry : String × RouteValue) (m P : String) : Prop :=
  ∃ routePath, parseRouteKey entry.1 = some (m, routePath) ∧
    (getContract (normalizeDescription entry.2).handler).isSome = true ∧
    convertPath routePath = P

theorem lookupKey_setKey_self {α : Type} (l : List (String × α)) (k : String)
    (v : α) : lookupKey (setKey l k v) k = some v := by
  induction l with
  | nil => simp [setKey, lookupKey]
  | cons hd tl ih =>
    obtain ⟨k0, w⟩ := hd
    by_cases h : k0 = k
    · simp [setKey, lookupKey, h]
    · simp [setKey, lookupKey, h, ih]

theorem lookupKey_setKey_ne {α : Type} (l : List (String × α)) (k k9 : String)
    (v : α) (h : k9 ≠ k) : lookupKey (setKey l k v) k9 = lookupKey l k9 := by
  have hne : ¬ k = k9 := fun he => h he.symm
  induction l with
  | nil => simp [setKey, lookupKey, hne]
  | cons hd tl ih =>
    obtain ⟨k0, w⟩ := hd
    by_cases h0 : k0 = k
    · subst h0
      simp [setKey, lookupKey, hne]
    · simp only [setKey, if_neg h0, lookupKey]
      by_cases h1 : k0 = k9
      · simp [h1]
      · simp [h1, ih]

theorem mem_keysOf_setKey {α : Type} (l : List (String × α)) (k a : String)
    (v : α) : a ∈ keysOf (setKey l k v) ↔ a ∈ keysOf l ∨ a = k := by
  induction l with
  | nil =>
    simp [setKey, keysOf]
  | cons hd tl ih =>
    obtain ⟨k0, w⟩ := hd
    by_cases h : k0 = k
    · subst h
      simp only [setKey, if_true]
      simp only [keysOf, List.map_cons, List.mem_cons]
      tauto
    · simp only [setKey, if_neg h, keysOf, List.map_cons, List.mem_cons]
      simp only [keysOf] at ih
      rw [ih]
      tauto

theorem nodup_keysOf_setKey {α : Type} (l : List (String × α)) (k : String)
    (v : α) (h : (keysOf l).Nodup) : (keysOf (setKey l k v)).Nodup := by
  induction l with
  | nil => simp [setKey, keysOf]
  | cons hd tl ih =>
    obtain ⟨k0, w⟩ := hd
    simp only [keysOf, List.map_cons, List.nodup_cons] at h
    by_cases h0 : k0 = k
    · subst h0
      simpa [setKey, keysOf, List.nodup_cons] using h
    · simp only [setKey, if_neg h0, keysOf, List.map_cons, List.nodup_cons]
      refine ⟨fun hmem => ?_, ih h.2⟩
      rcases (mem_keysOf_setKey tl k k0 v).mp hmem with h1 | h1
      · exact h.1 h1
      · exact h0 h1

theorem lookupKey_isSome_iff {α : Type} (l : List (String × α)) (k : String) :
    (lookupKey l k).isSome = true ↔ k ∈ keysOf l := by
  induction l with
  | nil => simp [lookupKey, keysOf]
  | cons hd tl ih =>
    obtain ⟨k0, w⟩ := hd
    by_cases h : k0 = k
    · subst h
      simp [lookupKey, keysOf]
    · have hne : ¬ k = k0 := fun he => h he.symm
      simp only [lookupKey, if_neg h, keysOf, List.map_cons, List.mem_cons]
      constructor
      · intro hs
        exact Or.inr (ih.mp hs)
      · rintro (he | hm)
        · exact absurd he hne
        · exact ih.mpr hm

theorem docExt {a b : OpenApiSchemaObject} (h1 : a.openapi = b.openapi)
    (h2 : a.info = b.info) (h3 : a.servers = b.servers)
    (h4 : a.paths = b.paths)
    (h5 : a.components.schemas = b.components.schemas)
    (h6 : a.components.securitySchemes = b.components.securitySchemes)
    (h7 : a.components.responses = b.components.responses) : a = b := by
  obtain ⟨o1, i1, s1, p1, c1s, c1ss, c1r⟩ := a
  obtain ⟨o2, i2, s2, p2, c2s, c2ss, c2r⟩ := b
  simp_all

/-- Claim C1 (code bug evidence): on a route whose `authPolicy` is
explicitly `disabled` but whose description declares a scheme-associated
`authHandler`, the registry still emits a security requirement for the
operation and still registers the scheme — the implementation never reads
`authPolicy` (or any process-wide default), contradicting the spec and the
unit test expecting `operation.security` to be absent for disabled routes. -/
theorem c1_auth_policy_ignored :
    (getOperationAt (buildOpenApiSchema tableAuthDisabled (initialDoc cfgDefault))
        "/users/{userId}" "get").map Operation.security
      = some (JsField.val [("jwtAuth", [])]) ∧
    lookupKey (buildOpenApiSchema tableAuthDisabled
        (initialDoc cfgDefault)).components.securitySchemes "jwtAuth"
      = some ⟨0⟩ := by
  constructor
  · decide
  · decide

/-- Claim C2 (code bug evidence): `registerRoutes` leaves the document
untouched when it returns — the build is queued as a microtask — so right
after the call the paths map of a contract-bearing table is still empty,
while running the queued task does populate it.  This contradicts the spec
and the synchronous unit tests. -/
theorem c2_registration_deferred :
    (∀ (config : OpenApiRegistryConfig) (st : RegistryState) (routes : AppRoutes),
      ((registerRoutes config st routes).2).doc = st.doc) ∧
    ((registerRoutes cfgDefault (initState cfgDefault) tableOneItem).2).doc.paths = [] ∧
    (flushMicrotasks
        ((registerRoutes cfgDefault (initState cfgDefault) tableOneItem).2)).doc.paths
      ≠ [] := by
  refine ⟨fun _ _ _ => rfl, by decide, by decide⟩

/-- Claim C3 (code bug evidence): the synthetic mount entry ignores the
configured documentation path — with `path: '/custom-docs'` the returned
table still keys the mount at the hard-coded `"MOUNT /api/docs"` — and a
configured `swaggerJsonPath` adds no raw-JSON entry at all, contradicting
the spec and both the unit and integration tests. -/
theorem c3_mount_path_hardcoded :
    lookupKey (registerRoutesTable cfgCustomPath tableTest) "MOUNT /custom-docs" = none ∧
    lookupKey (registerRoutesTable cfgCustomPath tableTest) "MOUNT /api/docs"
      = some mountEntry ∧
    keysOf (registerRoutesTable cfgJsonPath tableTest)
      = ["GET /test", "MOUNT /api/docs"] := by
  refine ⟨by decide, by decide, by decide⟩

/-- Claim C10: the table returned by `registerRoutes` is the input table
plus the synthetic mount entry: every non-mount key looks up exactly as in
the input, the mount key maps to the mount entry (replacing an input entry
under that key, if any), and no other key is introduced. -/
theorem c10_table_preservation :
    ∀ (config : OpenApiRegistryConfig) (st : RegistryState) (routes : AppRoutes),
      (registerRoutes config st routes).1 = registerRoutesTable config routes ∧
      lookupKey (registerRoutesTable config routes) "MOUNT /api/docs" = some mountEntry ∧
      (∀ k, k ≠ "MOUNT /api/docs" →
        lookupKey (registerRoutesTable config routes) k = lookupKey routes k) ∧
      (∀ k, k ∈ keysOf (registerRoutesTable config routes) →
        k = "MOUNT /api/docs" ∨ k ∈ keysOf routes) := by
  intro config st routes
  refine ⟨rfl, lookupKey_setKey_self routes _ mountEntry, ?_, ?_⟩
  · intro k hk
    exact lookupKey_setKey_ne routes _ k mountEntry hk
  · intro k hk
    rcases (mem_keysOf_setKey routes _ k mountEntry).mp hk with h | h
    · exact Or.inr h
    · exact Or.inl h

/-- Witness for C10 at a concrete table: a non-mount entry survives
registration unchanged. -/
theorem c10_table_preservation_witness :
    ("GET /test" : String) ≠ "MOUNT /api/docs" ∧
    lookupKey (registerRoutesTable cfgDefault tableTest) "GET /test"
      = lookupKey tableTest "GET /test" :=
  ⟨by decide,
    (c10_table_preservation cfgDefault (initState cfgDefault) tableTest).2.2.1
      "GET /test" (by decide)⟩

theorem registerRoute_preserves (doc : OpenApiSchemaObject) (m p : String)
    (h : AppRouteHandler) (a : Option AppMiddleware) :
    (registerRoute doc m p h a).openapi = doc.openapi ∧
    (registerRoute doc m p h a).info = doc.info ∧
    (registerRoute doc m p h a).servers = doc.servers ∧
    (registerRoute doc m p h a).components.schemas = doc.components.schemas ∧
    (registerRoute doc m p h a).components.responses
      = doc.components.responses := by
  cases hc : getContract h with
  | none => simp [registerRoute, hc]
  | some c =>
    cases hf : a.bind getSecurityScheme with
    | none => simp [registerRoute, registerSecuritySchemeDoc, hc, hf]
    | some sd => simp [registerRoute, registerSecuritySchemeDoc, hc, hf]

theorem processEntry_preserves (doc : OpenApiSchemaObject)
    (e : String × RouteValue) :
    (processEntry doc e).openapi = doc.openapi ∧
    (processEntry doc e).info = doc.info ∧
    (processEntry doc e).servers = doc.servers ∧
    (processEntry doc e).components.schemas = doc.components.schemas ∧
    (processEntry doc e).components.responses = doc.components.responses := by
  cases hp : parseRouteKey e.1 with
  | none => simp [processEntry, hp]
  | some parsed =>
    simp only [processEntry, hp]
    exact registerRoute_preserves doc parsed.1 parsed.2
      (normalizeDescription e.2).handler (normalizeDescription e.2).authHandler

theorem buildOpenApiSchema_preserves (routes : AppRoutes) :
    ∀ doc : OpenApiSchemaObject,
      (buildOpenApiSchema routes doc).openapi = doc.openapi ∧
      (buildOpenApiSchema routes doc).info = doc.info ∧
      (buildOpenApiSchema routes doc).servers = doc.servers ∧
      (buildOpenApiSchema routes doc).components.schemas = doc.components.schemas ∧
      (buildOpenApiSchema routes doc).components.responses
        = doc.components.responses := by
  induction routes with
  | nil => intro doc; exact ⟨rfl, rfl, rfl, rfl, rfl⟩
  | cons e rest ih =>
    intro doc
    have h1 := processEntry_preserves doc e
    have h2 := ih (processEntry doc e)
    have hb : buildOpenApiSchema (e :: rest) doc
        = buildOpenApiSchema rest (processEntry doc e) := rfl
    rw [hb]
    exact ⟨h2.1.trans h1.1, h2.2.1.trans h1.2.1, h2.2.2.1.trans h1.2.2.1,
      h2.2.2.2.1.trans h1.2.2.2.1, h2.2.2.2.2.trans h1.2.2.2.2⟩

/-- Claim C7: `reset()` clears `paths` and the two component maps while
`info`, `servers` and the error-response entries persist, and re-registering
the same route table after a reset rebuilds exactly the document a fresh
registry fed that table once would hold. -/
theorem c7_reset_reregister :
    ∀ (config : OpenApiRegistryConfig) (routes : AppRoutes),
      buildOpenApiSchema routes
          (resetDoc (buildOpenApiSchema routes (initialDoc config)))
        = buildOpenApiSchema routes (initialDoc config) ∧
      (resetDoc (buildOpenApiSchema routes (initialDoc config))).paths = [] ∧
      (resetDoc (buildOpenApiSchema routes
          (initialDoc config))).components.schemas = [] ∧
      (resetDoc (buildOpenApiSchema routes
          (initialDoc config))).components.securitySchemes = [] ∧
      (resetDoc (buildOpenApiSchema routes (initialDoc config))).info
        = (buildOpenApiSchema routes (initialDoc config)).info ∧
      (resetDoc (buildOpenApiSchema routes (initialDoc config))).servers
        = (buildOpenApiSchema routes (initialDoc config)).servers ∧
      (resetDoc (buildOpenApiSchema routes
          (initialDoc config))).components.responses
        = (buildOpenApiSchema routes
            (initialDoc config)).components.responses := by
  intro config routes
  have hpres := buildOpenApiSchema_preserves routes (initialDoc config)
  have hreset : resetDoc (buildOpenApiSchema routes (initialDoc config))
      = initialDoc config := by
    apply docExt
    · exact hpres.1
    · exact hpres.2.1
    · exact hpres.2.2.1
    · rfl
    · rfl
    · rfl
    · exact hpres.2.2.2.2
  exact ⟨by rw [hreset], rfl, rfl, rfl, rfl, rfl, rfl⟩

theorem lookupKey_foldl_setKey_not_mem {β γ : Type} (g : String × γ → β) :
    ∀ (src : List (String × γ)) (acc : List (String × β)) (code : String),
      code ∉ keysOf src →
      lookupKey (src.foldl (fun a e => setKey a e.1 (g e)) acc) code
        = lookupKey acc code := by
  intro src
  induction src with
  | nil => intro acc code _; rfl
  | cons e rest ih =>
    intro acc code hmem
    simp only [keysOf, List.map_cons, List.mem_cons, not_or] at hmem
    rw [List.foldl_cons]
    rw [ih (setKey acc e.1 (g e)) code (by simpa [keysOf] using hmem.2)]
    exact lookupKey_setKey_ne acc e.1 code (g e) hmem.1

theorem lookupKey_foldl_setKey_mem {β γ : Type} (g : String × γ → β) :
    ∀ (src : List (String × γ)) (acc : List (String × β)) (code : String)
      (x : γ),
      (keysOf src).Nodup → (code, x) ∈ src →
      lookupKey (src.foldl (fun a e => setKey a e.1 (g e)) acc) code
        = some (g (code, x)) := by
  intro src
  induction src with
  | nil => intro acc code x _ hmem; simp at hmem
  | cons e rest ih =>
    intro acc code x hnd hmem
    simp only [keysOf, List.map_cons, List.nodup_cons] at hnd
    rw [List.foldl_cons]
    rcases List.mem_cons.mp hmem with he | hm
    · subst he
      rw [lookupKey_foldl_setKey_not_mem g rest
        (setKey acc code (g (code, x))) code (by simpa [keysOf] using hnd.1)]
      exact lookupKey_setKey_self acc code (g (code, x))
    · exact ih (setKey acc e.1 (g e)) code x hnd.2 hm

/-- Claim C4: with no declared responses a single default open-object `200`
is synthesized; the fallback description table is as listed; and every
declared status code maps to a response object whose description is the
declared (truthy) one or the fallback, and which carries a `content` key
exactly when the entry has a schema (bare entry or `.schema` field). -/
theorem c4_response_translation :
    (createResponses none
      = [("200",
          { description := "Successful response"
            content := some ("application/json", { type := some "object" }) })]) ∧
    (getResponseDescription "200" = "Successful response" ∧
      getResponseDescription "201" = "Created successfully" ∧
      getResponseDescription "204" = "No content" ∧
      getResponseDescription "400" = "Bad request" ∧
      getResponseDescription "401" = "Unauthorized" ∧
      getResponseDescription "403" = "Forbidden" ∧
      getResponseDescription "404" = "Not found" ∧
      getResponseDescription "422" = "Validation error" ∧
      getResponseDescription "500" = "Internal server error" ∧
      getResponseDescription "123" = "Response") ∧
    (∀ cfg : ResponseConfig, (keysOf cfg.content).Nodup →
      ∀ code spec, (code, spec) ∈ cfg.content →
        lookupKey (createResponses (some cfg)) code
          = some
              { description :=
                  jsOrStr (specDescription spec) (getResponseDescription code)
                content :=
                  (specSchema spec).map
                    (fun s =>
                      (jsOrStr cfg.contentType "application/json",
                        toJSONSchema s)) }) := by
  refine ⟨rfl, ⟨by decide, by decide, by decide, by decide, by decide, by decide,
    by decide, by decide, by decide, by decide⟩, ?_⟩
  intro cfg hnd code spec hmem
  exact lookupKey_foldl_setKey_mem
    (fun e =>
      ({ description := jsOrStr (specDescription e.2) (getResponseDescription e.1)
         content :=
           (specSchema e.2).map
             (fun s =>
               (jsOrStr cfg.contentType "application/json", toJSONSchema s)) }
        : ResponseObject))
    cfg.content [] code spec hnd hmem

/-- Witness for C4 at a concrete response block: a described schema-less
`204` keeps its declared description and carries no `content` key. -/
theorem c4_response_translation_witness :
    (keysOf cfgRespW.content).Nodup ∧
    lookupKey (createResponses (some cfgRespW)) "204"
      = some { description := "Item deleted", content := none } :=
  ⟨by decide,
    by
      simpa using c4_response_translation.2.2 cfgRespW (by decide) "204"
        (ResponseSpec.detailed none (some "Item deleted") none) (by decide)⟩

/-- Counterexample for claim C9: a registered operation built from a
contract with no `summary` still carries the `summary` key — holding the
JavaScript `undefined` left behind by the unconditional assignment
`summary: apiConfig.summary` — rather than omitting the field entirely as
the claim states (and likewise for `description` and `tags`). -/
theorem c9_metadata_counterexample :
    (getOperationAt (buildOpenApiSchema tablePlain (initialDoc cfgDefault))
        "/plain" "get").map Operation.summary = some JsField.undef ∧
    (getOperationAt (buildOpenApiSchema tablePlain (initialDoc cfgDefault))
        "/plain" "get").map Operation.summary ≠ some JsField.absent ∧
    (getOperationAt (buildOpenApiSchema tablePlain (initialDoc cfgDefault))
        "/plain" "get").map Operation.tags = some JsField.undef := by
  refine ⟨by decide, by decide, by decide⟩

/-- Claim C9 as amended: `operationId` is copied exactly when present and
non-empty and its key is omitted entirely otherwise, while `summary`,
`description` and `tags` are copied when present but their keys are always
created on the operation object, holding `undefined` when the contract
lacks them (such placeholders disappear only at JSON serialization time,
not on the in-memory operation object). -/
theorem c9_metadata_fields :
    ∀ (doc : OpenApiSchemaObject) (c : RouteContract) (h : AppRouteHandler)
      (m p : String),
      getContract h = some c → lowerStr m = m →
      ∃ op,
        getOperationAt (registerRoute doc m p h none) (convertPath p) m
          = some op ∧
        op.operationId
          = (match c.operationId with
              | some s => if s = "" then JsField.absent else JsField.val s
              | none => JsField.absent) ∧
        op.summary = jsOpt c.summary ∧
        op.description = jsOpt c.description ∧
        op.tags = jsOpt c.tags := by
  intro doc c h m p hc hm
  refine ⟨mkOperation m c [], ?_, rfl, rfl, rfl, rfl⟩
  simp only [registerRoute, hc, Option.bind, getOperationAt]
  rw [lookupKey_setKey_self]
  simp only [Option.bind, hm]
  rw [lookupKey_setKey_self]

/-- Witness for the amended C9 at a concrete registration. -/
theorem c9_metadata_fields_witness :
    ∃ op,
      getOperationAt
          (registerRoute (initialDoc cfgDefault) "get" "/plain" handlerPlain none)
          (convertPath "/plain") "get"
        = some op ∧
      op.operationId
        = (match contractMinimal.operationId with
            | some s => if s = "" then JsField.absent else JsField.val s
            | none => JsField.absent) ∧
      op.summary = jsOpt contractMinimal.summary ∧
      op.description = jsOpt contractMinimal.description ∧
      op.tags = jsOpt contractMinimal.tags :=
  c9_metadata_fields (initialDoc cfgDefault) contractMinimal handlerPlain
    "get" "/plain" rfl (by decide)

theorem createParameters_nil_of_shape (t : String) (s : ZodType) (b : Bool)
    (h : (toJSONSchema s).type ≠ some "object" ∨
      (toJSONSchema s).properties = none) :
    createParameters t s b = [] := by
  rcases h with h | h
  · simp [createParameters, h]
  · by_cases ht : (toJSONSchema s).type = some "object"
    · simp [createParameters, ht, h]
    · simp [createParameters, ht]

theorem createParameters_eq_map (t : String) (s : ZodType) (b : Bool)
    (props : List (String × PropJson))
    (ht : (toJSONSchema s).type = some "object")
    (hp : (toJSONSchema s).properties = some props) :
    createParameters t s b
      = props.map (fun entry =>
          { name := entry.1
            paramIn := t
            required := b || ((toJSONSchema s).required.getD []).contains entry.1
            schema := entry.2 }) := by
  simp [createParameters, ht, hp]

theorem mem_createParameters (t : String) (s : ZodType) (b : Bool) (p : Param)
    (hp : p ∈ createParameters t s b) :
    p.paramIn = t ∧
    p.required = (b || ((toJSONSchema s).required.getD []).contains p.name) := by
  by_cases ht : (toJSONSchema s).type = some "object"
  · cases hprops : (toJSONSchema s).properties with
    | none =>
      rw [createParameters_nil_of_shape t s b (Or.inr hprops)] at hp
      simp at hp
    | some props =>
      simp only [createParameters, ht, ne_eq, not_true_eq_false, if_false,
        hprops] at hp
      rw [List.mem_map] at hp
      obtain ⟨entry, hmem, rfl⟩ := hp
      exact ⟨rfl, rfl⟩
  · rw [createParameters_nil_of_shape t s b (Or.inl ht)] at hp
    simp at hp

/-- Claim C8: when the compiled schema is not an object with properties
zero parameters are emitted; otherwise exactly one parameter object
`{name, in, required, schema}` is emitted per declared property, in
declaration order, carrying that property's name and schema, with `in` the
parameter kind and `required` computed as
`alwaysRequired || required-list membership`; the parameters of a
registered operation are exactly the query, path and header emissions (the
path call passing `alwaysRequired = true`), so every path parameter is
unconditionally required while query and header parameters are required
exactly when listed in their compiled schema's `required` list. -/
theorem c8_parameter_emission :
    (∀ (t : String) (s : ZodType) (b : Bool),
      ((toJSONSchema s).type ≠ some "object" ∨
        (toJSONSchema s).properties = none) →
      createParameters t s b = []) ∧
    (∀ (t : String) (s : ZodType) (b : Bool)
      (props : List (String × PropJson)),
      (toJSONSchema s).type = some "object" →
      (toJSONSchema s).properties = some props →
      createParameters t s b
        = props.map (fun entry =>
            { name := entry.1
              paramIn := t
              required :=
                b || ((toJSONSchema s).required.getD []).contains entry.1
              schema := entry.2 })) ∧
    (∀ (t : String) (s : ZodType) (b : Bool) (p : Param),
      p ∈ createParameters t s b →
      p.paramIn = t ∧
      p.required
        = (b || ((toJSONSchema s).required.getD []).contains p.name)) ∧
    (∀ (c : RouteContract) (m : String)
      (sec : List (String × List String)),
      (mkOperation m c sec).parameters
        = (match c.request.bind RequestSpec.query with
            | some q => createParameters "query" q false
            | none => []) ++
          (match c.request.bind RequestSpec.params with
            | some pr => createParameters "path" pr true
            | none => []) ++
          (match c.request.bind RequestSpec.headers with
            | some hsc => createParameters "header" hsc false
            | none => [])) ∧
    (∀ (c : RouteContract) (m : String)
      (sec : List (String × List String)) (p : Param),
      p ∈ (mkOperation m c sec).parameters →
      (p.paramIn = "path" → p.required = true) ∧
      (p.paramIn = "query" → ∀ q, c.request.bind RequestSpec.query = some q →
        p.required = ((toJSONSchema q).required.getD []).contains p.name) ∧
      (p.paramIn = "header" →
        ∀ hs, c.request.bind RequestSpec.headers = some hs →
        p.required = ((toJSONSchema hs).required.getD []).contains p.name)) := by
  refine ⟨createParameters_nil_of_shape, createParameters_eq_map,
    mem_createParameters, fun c m sec => rfl, ?_⟩
  intro c m sec p hp
  have hsplit :
      p ∈ (match c.request.bind RequestSpec.query with
            | some q => createParameters "query" q false
            | none => []) ∨
      p ∈ (match c.request.bind RequestSpec.params with
            | some pr => createParameters "path" pr true
            | none => []) ∨
      p ∈ (match c.request.bind RequestSpec.headers with
            | some hsc => createParameters "header" hsc false
            | none => []) := by
    have hp2 : p ∈
        (match c.request.bind RequestSpec.query with
          | some q => createParameters "query" q false
          | none => []) ++
        (match c.request.bind RequestSpec.params with
          | some pr => createParameters "path" pr true
          | none => []) ++
        (match c.request.bind RequestSpec.headers with
          | some hsc => createParameters "header" hsc false
          | none => []) := hp
    rcases List.mem_append.mp hp2 with hin | hin
    · rcases List.mem_append.mp hin with hin2 | hin2
      · exact Or.inl hin2
      · exact Or.inr (Or.inl hin2)
    · exact Or.inr (Or.inr hin)
  rcases hsplit with hin | hin | hin
  · cases hq : c.request.bind RequestSpec.query with
    | none => rw [hq] at hin; simp at hin
    | some q =>
      rw [hq] at hin
      have hm := mem_createParameters "query" q false p hin
      refine ⟨fun hpath => ?_, fun _ q0 hq0 => ?_, fun hhd => ?_⟩
      · rw [hm.1] at hpath; simp at hpath
      · cases hq0
        simpa using hm.2
      · rw [hm.1] at hhd; simp at hhd
  · cases hpr : c.request.bind RequestSpec.params with
    | none => rw [hpr] at hin; simp at hin
    | some pr =>
      rw [hpr] at hin
      have hm := mem_createParameters "path" pr true p hin
      refine ⟨fun _ => ?_, fun hq => ?_, fun hhd => ?_⟩
      · simpa using hm.2
      · rw [hm.1] at hq; simp at hq
      · rw [hm.1] at hhd; simp at hhd
  · cases hh : c.request.bind RequestSpec.headers with
    | none => rw [hh] at hin; simp at hin
    | some hsc =>
      rw [hh] at hin
      have hm := mem_createParameters "header" hsc false p hin
      refine ⟨fun hpath => ?_, fun hq => ?_, fun _ h0 hh0 => ?_⟩
      · rw [hm.1] at hpath; simp at hpath
      · rw [hm.1] at hq; simp at hq
      · cases hh0
        simpa using hm.2

/-- Witness for C8 at a concrete contract: the one declared path property
of `contractParams` yields exactly one emitted parameter carrying its name
and schema, required even though its source schema lists no required
property. -/
theorem c8_parameter_emission_witness :
    (toJSONSchema schemaParamsW).type = some "object" ∧
    (toJSONSchema schemaParamsW).properties = some [("userId", ⟨4⟩)] ∧
    createParameters "path" schemaParamsW true = [paramUserId] ∧
    paramUserId ∈ (mkOperation "get" contractParams []).parameters ∧
    paramUserId.required = true :=
  ⟨by decide, by decide,
    (c8_parameter_emission.2.1 "path" schemaParamsW true [("userId", ⟨4⟩)]
      (by decide) (by decide)).trans (by decide),
    by decide,
    (c8_parameter_emission.2.2.2.2 contractParams "get" [] paramUserId
      (by decide)).1 rfl⟩

theorem convFuel_singleton : ∀ (fuel : Nat) (c : Char), convFuel fuel [c] = [c]
  | 0, _ => rfl
  | _ + 1, _ => rfl

theorem head?_convFuel : ∀ (fuel : Nat) (l : List Char),
    (convFuel fuel l).head? = l.head?
  | 0, _ => rfl
  | _ + 1, [] => rfl
  | _ + 1, [_] => rfl
  | _ + 1, _ :: _ :: _ => by
    simp only [convFuel]
    split
    · rfl
    · rfl

theorem convFuel_of_not_hasParam :
    ∀ (fuel : Nat) (l : List Char), hasParam l = false → convFuel fuel l = l := by
  intro fuel
  induction fuel with
  | zero => intro l _; rfl
  | succ f ih =>
    intro l hl
    rcases l with _ | ⟨c1, _ | ⟨c2, rest⟩⟩
    · rfl
    · rfl
    · by_cases hcond : c1 = '/' ∧ c2 = ':' ∧ rest ≠ [] ∧ rest.head? ≠ some '/'
      · rw [hasParam, if_pos hcond] at hl
        exact absurd hl (by simp)
      · rw [hasParam, if_neg hcond] at hl
        rw [convFuel, if_neg hcond, ih (c2 :: rest) hl]

theorem hasParam_append_of_no_slash :
    ∀ (pre Z : List Char), (∀ a ∈ pre, a ≠ '/') →
      hasParam (pre ++ Z) = hasParam Z := by
  intro pre
  induction pre with
  | nil => intro Z _; rfl
  | cons a pre ih =>
    intro Z hpre
    have ha : a ≠ '/' := hpre a (by simp)
    have hrest : ∀ b ∈ pre, b ≠ '/' := fun b hb => hpre b (by simp [hb])
    rcases hPZ : pre ++ Z with _ | ⟨b, tl⟩
    · have hZ : Z = [] := by
        rcases List.append_eq_nil.mp hPZ with ⟨_, h⟩
        exact h
      subst hZ
      simp only [List.append_nil] at hPZ ⊢
      rw [hPZ]
      rfl
    · have hgoal : a :: (pre ++ Z) = a :: b :: tl := by rw [hPZ]
      simp only [List.cons_append] at hgoal ⊢
      rw [hgoal]
      have hcond : ¬(a = '/' ∧ b = ':' ∧ tl ≠ [] ∧ tl.head? ≠ some '/') :=
        fun hc => ha hc.1
      rw [hasParam, if_neg hcond, ← hPZ]
      exact ih Z hrest

theorem hasParam_convFuel :
    ∀ (fuel : Nat) (l : List Char), l.length ≤ fuel →
      hasParam (convFuel fuel l) = false := by
  intro fuel
  induction fuel using Nat.strong_induction_on with
  | _ fuel ih =>
    intro l hl
    rcases fuel with _ | f
    · have hln : l = [] := List.length_eq_zero.mp (Nat.le_zero.mp hl)
      subst hln
      rfl
    · rcases l with _ | ⟨c1, _ | ⟨c2, rest⟩⟩
      · rfl
      · rfl
      · have hlen2 : rest.length + 2 ≤ f + 1 := by
          simpa [List.length_cons] using hl
        by_cases hcond : c1 = '/' ∧ c2 = ':' ∧ rest ≠ [] ∧ rest.head? ≠ some '/'
        · rw [convFuel, if_pos hcond]
          obtain ⟨h1, _, _, _⟩ := hcond
          subst h1
          rw [hasParam, if_neg (by rintro ⟨_, e2, _, _⟩; exact absurd e2 (by decide))]
          have hassoc :
              ('{' :: (rest.takeWhile (fun a => a ≠ '/') ++
                '}' :: convFuel f (rest.dropWhile (fun a => a ≠ '/'))))
              = ('{' :: (rest.takeWhile (fun a => a ≠ '/') ++ ['}'])) ++
                  convFuel f (rest.dropWhile (fun a => a ≠ '/')) := by
            simp
          rw [hassoc]
          rw [hasParam_append_of_no_slash _ _ ?hpre]
          case hpre =>
            intro a haIn
            rcases List.mem_cons.mp haIn with h | h
            · subst h; decide
            · rcases List.mem_append.mp h with h | h
              · have := List.mem_takeWhile_imp h
                simpa using this
              · have : a = '}' := by simpa using h
                subst this; decide
          apply ih f (Nat.lt_succ_self f)
          have hdw : (rest.dropWhile (fun a => a ≠ '/')).length ≤ rest.length :=
            (List.dropWhile_sublist _).length_le
          omega
        · rw [convFuel, if_neg hcond]
          have hlen : (c2 :: rest).length ≤ f := by
            simp only [List.length_cons]
            omega
          have hrec : hasParam (convFuel f (c2 :: rest)) = false :=
            ih f (Nat.lt_succ_self f) _ hlen
          have hx := head?_convFuel f (c2 :: rest)
          rcases hX : convFuel f (c2 :: rest) with _ | ⟨x, xs⟩
          · rfl
          · have hxc2 : x = c2 := by
              rw [hX] at hx
              simpa using hx
            rw [hxc2] at hX
            rw [hX] at hrec
            rw [hxc2]
            have hc2 : ¬(c1 = '/' ∧ c2 = ':' ∧ xs ≠ [] ∧ xs.head? ≠ some '/') := by
              rintro ⟨e1, e2, e3, e4⟩
              subst e1
              subst e2
              have hsplit : rest = [] ∨ rest.head? = some '/' := by
                by_contra hno
                push_neg at hno
                exact hcond ⟨rfl, rfl, hno.1, hno.2⟩
              rcases hsplit with hre | hre
              · subst hre
                rw [convFuel_singleton] at hX
                exact e3 (List.cons.injEq .. ▸ hX).2.symm
              · rcases rest with _ | ⟨r0, r⟩
                · simp at hre
                · have hr0 : r0 = '/' := by simpa using hre
                  subst hr0
                  rcases f with _ | g
                  · simp at hlen
                  · have hstep : convFuel (g + 1) (':' :: '/' :: r)
                        = ':' :: convFuel g ('/' :: r) := by
                      rw [convFuel, if_neg (by rintro ⟨e, _⟩; exact absurd e (by decide))]
                    rw [hstep] at hX
                    have hxs : xs = convFuel g ('/' :: r) :=
                      ((List.cons.injEq .. ▸ hX).2).symm
                    apply e4
                    rw [hxs, head?_convFuel]
                    rfl
            rw [hasParam, if_neg hc2]
            exact hrec

/-- Claim C6: path conversion turns every colon parameter segment into its
brace form while leaving non-parameter segments unchanged (witnessed on the
spec's example), and it is idempotent — converting an already-converted
path returns it unchanged, so no double braces can arise. -/
theorem c6_path_conversion :
    convertPath "/users/:id/orders/:orderId" = "/users/{id}/orders/{orderId}" ∧
    ∀ p : String, convertPath (convertPath p) = convertPath p := by
  constructor
  · decide
  · intro p
    show (⟨convFuel (convertPath p).data.length (convertPath p).data⟩ : String)
      = convertPath p
    have hdata : (convertPath p).data = convFuel p.data.length p.data := rfl
    rw [hdata]
    have hnp : hasParam (convFuel p.data.length p.data) = false :=
      hasParam_convFuel p.data.length p.data (le_refl _)
    rw [convFuel_of_not_hasParam _ _ hnp]
    rfl

theorem lowerStr_of_recognized (m : String)
    (h : recognizedMethods.contains m = true) : lowerStr m = m := by
  have hm : m ∈ recognizedMethods := by
    simpa using h
  simp only [recognizedMethods, List.mem_cons, List.mem_singleton,
    List.not_mem_nil, or_false] at hm
  rcases hm with rfl | rfl | rfl | rfl | rfl | rfl | rfl <;> decide

theorem parseRouteKey_some (key m rp : String)
    (h : parseRouteKey key = some (m, rp)) :
    recognizedMethods.contains m = true ∧ lowerStr m = m := by
  unfold parseRouteKey at h
  rcases hsp : splitWsParts key with _ | ⟨a, _ | ⟨b, rest⟩⟩
  · rw [hsp] at h
    exact absurd h (by simp)
  · rw [hsp] at h
    exact absurd h (by simp)
  · rw [hsp] at h
    cases hr : recognizedMethods.contains (lowerStr a) with
    | false =>
      simp only [hr] at h
      simp at h
    | true =>
      simp only [hr, if_true] at h
      have hinj := Option.some.injEq .. ▸ h
      have hm : m = lowerStr a := (Prod.mk.injEq .. ▸ hinj).1.symm
      subst hm
      exact ⟨hr, lowerStr_of_recognized _ hr⟩

theorem registerRoute_no_contract (doc : OpenApiSchemaObject) (m rp : String)
    (h : AppRouteHandler) (a : Option AppMiddleware)
    (hc : getContract h = none) : registerRoute doc m rp h a = doc := by
  simp [registerRoute, hc]

theorem registerRoute_paths_eq (doc : OpenApiSchemaObject) (m rp : String)
    (h : AppRouteHandler) (a : Option AppMiddleware) (c : RouteContract)
    (hc : getContract h = some c) :
    ∃ op, (registerRoute doc m rp h a).paths
      = setKey doc.paths (convertPath rp)
          (setKey ((lookupKey doc.paths (convertPath rp)).getD [])
            (lowerStr m) op) := by
  cases hf : a.bind getSecurityScheme with
  | none =>
    refine ⟨mkOperation m c [], ?_⟩
    simp [registerRoute, hc, hf, registerSecuritySchemeDoc]
  | some sd =>
    refine ⟨mkOperation m c [(sd.name, sd.scopes.getD [])], ?_⟩
    simp [registerRoute, hc, hf, registerSecuritySchemeDoc]

theorem methodIn_iff_getD (doc : OpenApiSchemaObject) (P m : String) :
    m ∈ keysOf ((lookupKey doc.paths P).getD []) ↔ methodIn doc P m := by
  cases hl : lookupKey doc.paths P with
  | none => simp [methodIn, hl, keysOf]
  | some item => simp [methodIn, hl]

theorem processEntry_walk (doc : OpenApiSchemaObject) (e : String × RouteValue)
    (hnd : (keysOf doc.paths).Nodup)
    (hitem : ∀ P item, lookupKey doc.paths P = some item → (keysOf item).Nodup) :
    (keysOf (processEntry doc e).paths).Nodup ∧
    (∀ P item, lookupKey (processEntry doc e).paths P = some item →
      (keysOf item).Nodup) ∧
    (∀ P m0, methodIn (processEntry doc e) P m0 ↔
      (methodIn doc P m0 ∨ effectiveEntry e m0 P)) ∧
    (∀ P, P ∈ keysOf (processEntry doc e).paths ↔
      (P ∈ keysOf doc.paths ∨ ∃ m0, effectiveEntry e m0 P)) := by
  cases hp : parseRouteKey e.1 with
  | none =>
    have hskip : processEntry doc e = doc := by simp [processEntry, hp]
    rw [hskip]
    refine ⟨hnd, hitem, ?_, ?_⟩
    · intro P m0
      simp [effectiveEntry, hp]
    · intro P
      simp [effectiveEntry, hp]
  | some parsed =>
    obtain ⟨m1, rp⟩ := parsed
    have hpe : processEntry doc e
        = registerRoute doc m1 rp (normalizeDescription e.2).handler
            (normalizeDescription e.2).authHandler := by
      simp [processEntry, hp]
    rw [hpe]
    have hml : lowerStr m1 = m1 := (parseRouteKey_some e.1 m1 rp hp).2
    cases hc : getContract (normalizeDescription e.2).handler with
    | none =>
      rw [registerRoute_no_contract doc m1 rp _ _ hc]
      refine ⟨hnd, hitem, ?_, ?_⟩
      · intro P m0
        simp [effectiveEntry, hp, hc]
      · intro P
        simp [effectiveEntry, hp, hc]
    | some c =>
      obtain ⟨op, hpaths⟩ := registerRoute_paths_eq doc m1 rp _ _ c hc
      rw [hml] at hpaths
      have heff : ∀ m0 P, effectiveEntry e m0 P ↔ (m0 = m1 ∧ P = convertPath rp) := by
        intro m0 P
        constructor
        · rintro ⟨rp2, hpe2, _, hcv⟩
          rw [hp] at hpe2
          have h1 := Option.some.injEq .. ▸ hpe2
          have hm0 : m1 = m0 := (Prod.mk.injEq .. ▸ h1).1
          have hrp2 : rp = rp2 := (Prod.mk.injEq .. ▸ h1).2
          subst hrp2
          exact ⟨hm0.symm, hcv.symm⟩
        · rintro ⟨rfl, rfl⟩
          exact ⟨rp, hp, by simp [hc], rfl⟩
      have hitem0 : (keysOf ((lookupKey doc.paths (convertPath rp)).getD [])).Nodup := by
        cases hl : lookupKey doc.paths (convertPath rp) with
        | none => simp [keysOf]
        | some it => simpa using hitem _ it hl
      refine ⟨?_, ?_, ?_, ?_⟩
      · rw [hpaths]
        exact nodup_keysOf_setKey _ _ _ hnd
      · intro P item hlook
        rw [hpaths] at hlook
        by_cases hP : P = convertPath rp
        · subst hP
          rw [lookupKey_setKey_self] at hlook
          have hitemEq := Option.some.injEq .. ▸ hlook
          rw [← hitemEq]
          exact nodup_keysOf_setKey _ _ _ hitem0
        · rw [lookupKey_setKey_ne _ _ _ _ hP] at hlook
          exact hitem P item hlook
      · intro P m0
        rw [heff m0 P]
        unfold methodIn
        rw [hpaths]
        by_cases hP : P = convertPath rp
        · subst hP
          rw [lookupKey_setKey_self]
          have hx : (∃ item,
              some (setKey ((lookupKey doc.paths (convertPath rp)).getD []) m1 op)
                = some item ∧ m0 ∈ keysOf item) ↔
              m0 ∈ keysOf (setKey ((lookupKey doc.paths (convertPath rp)).getD [])
                m1 op) := by
            simp
          rw [hx, mem_keysOf_setKey]
          rw [methodIn_iff_getD doc (convertPath rp) m0]
          constructor
          · rintro (h | h)
            · exact Or.inl h
            · exact Or.inr ⟨h, rfl⟩
          · rintro (h | ⟨h, _⟩)
            · exact Or.inl h
            · exact Or.inr h
        · rw [lookupKey_setKey_ne _ _ _ _ hP]
          constructor
          · intro h
            exact Or.inl h
          · rintro (h | ⟨_, hcv⟩)
            · exact h
            · exact absurd hcv hP
      · intro P
        rw [hpaths, mem_keysOf_setKey]
        constructor
        · rintro (h | h)
          · exact Or.inl h
          · exact Or.inr ⟨m1, (heff m1 P).mpr ⟨rfl, h⟩⟩
        · rintro (h | ⟨m0, h⟩)
          · exact Or.inl h
          · exact Or.inr ((heff m0 P).mp h).2

theorem buildOpenApiSchema_walk (routes : AppRoutes) :
    ∀ doc : OpenApiSchemaObject,
      (keysOf doc.paths).Nodup →
      (∀ P item, lookupKey doc.paths P = some item → (keysOf item).Nodup) →
      ((keysOf (buildOpenApiSchema routes doc).paths).Nodup ∧
       (∀ P item, lookupKey (buildOpenApiSchema routes doc).paths P = some item →
         (keysOf item).Nodup) ∧
       (∀ P m0, methodIn (buildOpenApiSchema routes doc) P m0 ↔
         (methodIn doc P m0 ∨ ∃ e ∈ routes, effectiveEntry e m0 P)) ∧
       (∀ P, P ∈ keysOf (buildOpenApiSchema routes doc).paths ↔
         (P ∈ keysOf doc.paths ∨ ∃ e ∈ routes, ∃ m0, effectiveEntry e m0 P))) := by
  induction routes with
  | nil =>
    intro doc h1 h2
    refine ⟨h1, h2, ?_, ?_⟩
    · intro P m0
      simp [buildOpenApiSchema]
    · intro P
      simp [buildOpenApiSchema]
  | cons e rest ih =>
    intro doc h1 h2
    have hstep := processEntry_walk doc e h1 h2
    have hb : buildOpenApiSchema (e :: rest) doc
        = buildOpenApiSchema rest (processEntry doc e) := rfl
    rw [hb]
    have hrec := ih (processEntry doc e) hstep.1 hstep.2.1
    refine ⟨hrec.1, hrec.2.1, ?_, ?_⟩
    · intro P m0
      rw [hrec.2.2.1 P m0, hstep.2.2.1 P m0]
      constructor
      · rintro ((h | h) | ⟨e2, he2, h⟩)
        · exact Or.inl h
        · exact Or.inr ⟨e, List.mem_cons_self e rest, h⟩
        · exact Or.inr ⟨e2, List.mem_cons_of_mem e he2, h⟩
      · rintro (h | ⟨e2, he2, h⟩)
        · exact Or.inl (Or.inl h)
        · rcases List.mem_cons.mp he2 with rfl | hmem
          · exact Or.inl (Or.inr h)
          · exact Or.inr ⟨e2, hmem, h⟩
    · intro P
      rw [hrec.2.2.2 P, hstep.2.2.2 P]
      constructor
      · rintro ((h | h) | ⟨e2, he2, h⟩)
        · exact Or.inl h
        · exact Or.inr ⟨e, List.mem_cons_self e rest, h⟩
        · exact Or.inr ⟨e2, List.mem_cons_of_mem e he2, h⟩
      · rintro (h | ⟨e2, he2, h⟩)
        · exact Or.inl (Or.inl h)
        · rcases List.mem_cons.mp he2 with rfl | hmem
          · exact Or.inl (Or.inr h)
          · exact Or.inr ⟨e2, hmem, h⟩

/-- Claim C5: walking any route table from a fresh document produces
exactly one path entry per distinct converted path (path keys are
duplicate-free and present exactly for the effective routes) and exactly
one method entry per method-path pair of an effective route (method keys of
each item are duplicate-free and present exactly for those pairs);
malformed keys, unrecognised methods and contract-less handlers contribute
nothing, and every operation involved is total, so no error is raised. -/
theorem c5_walk_structure :
    ∀ (config : OpenApiRegistryConfig) (routes : AppRoutes),
      (keysOf (buildOpenApiSchema routes (initialDoc config)).paths).Nodup ∧
      (∀ P item,
        lookupKey (buildOpenApiSchema routes (initialDoc config)).paths P
          = some item → (keysOf item).Nodup) ∧
      (∀ P m0, methodIn (buildOpenApiSchema routes (initialDoc config)) P m0 ↔
        ∃ e ∈ routes, effectiveEntry e m0 P) ∧
      (∀ P, P ∈ keysOf (buildOpenApiSchema routes (initialDoc config)).paths ↔
        ∃ e ∈ routes, ∃ m0, effectiveEntry e m0 P) := by
  intro config routes
  have h := buildOpenApiSchema_walk routes (initialDoc config)
    (by simp [initialDoc, keysOf])
    (by intro P item hx; simp [initialDoc, lookupKey] at hx)
  refine ⟨h.1, h.2.1, ?_, ?_⟩
  · intro P m0
    rw [h.2.2.1 P m0]
    simp [methodIn, initialDoc, lookupKey]
  · intro P
    rw [h.2.2.2 P]
    simp [initialDoc, keysOf]

/-- Witness for C5: the recognised, contract-bearing `GET /items` route of
the mixed table shows up as a method entry in the walked document. -/
theorem c5_walk_structure_witness :
    methodIn (buildOpenApiSchema tableMixed (initialDoc cfgDefault))
      "/items" "get" :=
  ((c5_walk_structure cfgDefault tableMixed).2.2.1 "/items" "get").mpr
    ⟨("GET /items", RouteValue.fn handlerPlain), by decide,
      "/items", by decide, by decide, by decide⟩
